import Mathlib

set_option maxHeartbeats 1000000

namespace AutoDev

/-!
Verification development for the `auto_dev.protocols` schema-to-model compiler:
the scope adapter (`adapters.py`), the type resolver and the model/codec
renderer (`formatter.py`).  Definitions are shallow embeddings of the Python
source; each carries a reference to the function and lines it embeds.
-/

/-- Modelled from the spec: the module `auto_dev/protocols/primitives.py`
(holding the scalar-type table `PRIMITIVE_TYPE_MAP`) is not among the sources
at hand; the spec describes the table by the examples `int32 → Int32`,
`string → String`, `bool → Bool`, each primitive carrying explicit
bit-width/range semantics. -/
def PRIMITIVE_TYPE_MAP : List (String × String) :=
  [("int32", "Int32"), ("string", "String"), ("bool", "Bool")]

/-- `PRIMITIVE_TYPE_MAP.get(t)` — dictionary lookup. -/
def primLookup (t : String) : Option String :=
  (PRIMITIVE_TYPE_MAP.find? (fun p => p.1 == t)).map Prod.snd

/-- `t in PRIMITIVE_TYPE_MAP` — dictionary membership. -/
def isPrimitiveName (t : String) : Bool := (primLookup t).isSome

/-- Scope chain mirroring `adapters.FileAdapter` / `adapters.MessageAdapter`
as consumed by `formatter.qualified_type`: the `parent` back-reference of a
message adapter is `FileAdapter | MessageAdapter | None`, so the chain is one
sum with `noneS` for an unset parent.  A message scope carries its
`fully_qualified_name` and its directly declared `enum_names` and
`message_names`. -/
inductive Scope where
  | noneS : Scope
  | fileS (enumNames messageNames : List String) : Scope
  | msgS (fqn : String) (enumNames messageNames : List String)
      (parent : Scope) : Scope

/-- `formatter.qualified_type.find_definition` (formatter.py lines 23-28):
`None` when the scope is absent or is the `FileAdapter`; otherwise check the
message scope's `enum_names`/`message_names` and recurse on `scope.parent`. -/
def find_definition (typeName : String) : Scope → Option String
  | .noneS => none
  | .fileS _ _ => none
  | .msgS fqn ens mns parent =>
      if ens.contains typeName || mns.contains typeName then
        some (fqn ++ "." ++ typeName)
      else find_definition typeName parent

/-- `formatter.qualified_type` (formatter.py lines 20-31): the scope-chain
search, then the primitive table, then the name unchanged. -/
def qualified_type (adapter : Scope) (typeName : String) : String :=
  match find_definition typeName adapter with
  | some q => q
  | none => (primLookup typeName).getD typeName

/-- `adapters.camel_to_snake` (adapters.py lines 29-31): insert `_` before
every uppercase letter not at the start of the string, then lowercase
(`re.sub(r"(?<!^)(?=[A-Z])", "_", name).lower()`). -/
def camel_to_snake (name : String) : String :=
  (name.toList.foldl
    (fun (acc : String × Bool) (c : Char) =>
      if c.isUpper && !acc.2 then (acc.1 ++ "_" ++ String.singleton c.toLower, false)
      else (acc.1 ++ String.singleton c.toLower, false))
    ("", true)).1

/-- `proto_schema_parser.ast.FieldCardinality`; `field.cardinality` may also be
`None` (the default), modelled as `Option Card` at use sites. -/
inductive Card where
  | required
  | optional
  | repeated
deriving DecidableEq

/-- `proto_schema_parser.ast.Field`: `name`, `type` (a primitive keyword or a
type reference, unresolved), `cardinality`. -/
structure FieldA where
  name : String
  type : String
  cardinality : Option Card
deriving DecidableEq

/-- An element of a `OneOf` node: the parser may place non-`Field` nodes
(comments, options, groups) inside a oneof; `render_attribute` checks
`all(isinstance(e, Field) ...)`. -/
inductive OneofElem where
  | oField (f : FieldA)
  | oComment (text : String)
  | oOption
  | oGroup
deriving DecidableEq

/-- `isinstance(e, Field)` for a oneof element. -/
def isOFieldB : OneofElem → Bool
  | .oField _ => true
  | _ => false

/-- The `Field` payload of a oneof element; the default is unreachable at the
call sites, which are guarded by `isOFieldB` (Python would raise
`AttributeError` accessing `.name`/`.type` on a non-`Field`). -/
def oneofFieldD : OneofElem → FieldA
  | .oField f => f
  | _ => ⟨"", "", none⟩

/-- A `MessageElement` of the adapted tree handed to the renderer: the raw
`proto_schema_parser.ast` node kinds, with nested messages already wrapped
into adapters (`MessageAdapter.from_message` converts `ast.Message` children
recursively), so `messageA` carries its name and adapted elements. -/
inductive Elem where
  | comment (text : String)
  | fieldE (f : FieldA)
  | oneofE (name : String) (elements : List OneofElem)
  | mapFieldE (name keyType valueType : String)
  | enumE (name : String) (elements : List (String × Int))
  | messageA (name : String) (elements : List Elem)
  | groupE
  | optionE
  | extensionRangeE
  | reservedE
  | extensionE

/-- Tag-level stand-in for the Python `repr` of an AST node, used only inside
error message payloads (`msg = f"..."` in formatter.py); the claims do not
constrain the text of those payloads. -/
def elemRepr : Elem → String
  | .comment _ => "Comment(...)"
  | .fieldE _ => "Field(...)"
  | .oneofE _ _ => "OneOf(...)"
  | .mapFieldE _ _ _ => "MapField(...)"
  | .enumE _ _ => "Enum(...)"
  | .messageA _ _ => "Message(...)"
  | .groupE => "Group(...)"
  | .optionE => "Option(...)"
  | .extensionRangeE => "ExtensionRange(...)"
  | .reservedE => "Reserved(...)"
  | .extensionE => "Extension(...)"

/-- `isinstance(e, MessageAdapter | ast.Enum)` — a nested type definition. -/
def isNestedDef : Elem → Bool
  | .messageA _ _ => true
  | .enumE _ _ => true
  | _ => false

/-- `isinstance(e, (ast.Field, ast.MapField, ast.OneOf))` — the element kinds
supplied to the generated constructor call (`render_decoder.constructor_kwargs`,
formatter.py line 235). -/
def isCtorElem : Elem → Bool
  | .fieldE _ => true
  | .mapFieldE _ _ _ => true
  | .oneofE _ _ => true
  | _ => false

/-- `e.name` for the named element kinds (comments and legacy kinds carry no
name; the call sites only use this on named kinds). -/
def elemName : Elem → String
  | .fieldE f => f.name
  | .oneofE nm _ => nm
  | .mapFieldE nm _ _ => nm
  | .enumE nm _ => nm
  | .messageA nm _ => nm
  | _ => ""

/-- Names of the enums declared directly in an element list —
`MessageAdapter.enum_names` (adapters.py lines 61-65), computed by
`from_message` grouping elements by kind. -/
def enumNamesOf (es : List Elem) : List String :=
  es.filterMap (fun e => match e with | .enumE nm _ => some nm | _ => none)

/-- Names of the messages declared directly in an element list —
`MessageAdapter.message_names` (adapters.py lines 67-71). -/
def messageNamesOf (es : List Elem) : List String :=
  es.filterMap (fun e => match e with | .messageA nm _ => some nm | _ => none)

/-- The attributes of a `MessageAdapter` consumed by the formatter: `name`,
`fully_qualified_name`, the derived `enum_names`/`message_names` sets, the
`parent` back-reference, and `file.enum_names` (the file back-reference is
only ever used for its top-level enum names). -/
structure MsgCtx where
  name : String
  fqn : String
  enumNames : List String
  messageNames : List String
  parent : Scope
  fileEnumNames : List String

/-- The scope-chain node of a message adapter, as walked by
`qualified_type.find_definition`. -/
def MsgCtx.toScope (c : MsgCtx) : Scope :=
  .msgS c.fqn c.enumNames c.messageNames c.parent

/-- The `FileAdapter | MessageAdapter` parameter of `render_attribute` /
`render_field` / `qualified_type`. -/
inductive Ctx where
  | fileC (enumNames messageNames : List String)
  | msgC (m : MsgCtx)

/-- The scope the context denotes for `qualified_type`. -/
def Ctx.toScope : Ctx → Scope
  | .fileC ens mns => .fileS ens mns
  | .msgC m => m.toScope

/-- Top-level enum names of the file a context belongs to
(`message.file.enum_names`). -/
def Ctx.fileEnums : Ctx → List String
  | .fileC ens _ => ens
  | .msgC m => m.fileEnumNames

/-- The `MessageAdapter` built for a nested message: `from_message` sets
`fully_qualified_name = parent_prefix + name` (adapters.py line 90) and
derives `enum_names`/`message_names` from the grouped elements; `set_parent`
(adapters.py lines 167-174) installs the parent and file back-references. -/
def childCtx (ctx : Ctx) (name : String) (elems : List Elem) : MsgCtx :=
  { name := name
    fqn := match ctx with
      | .fileC _ _ => name
      | .msgC m => m.fqn ++ "." ++ name
    enumNames := enumNamesOf elems
    messageNames := messageNamesOf elems
    parent := ctx.toScope
    fileEnumNames := ctx.fileEnums }

/-- Python exception classes raised by the formatter. -/
inductive PyErr where
  | notImplementedError (msg : String)
  | typeError (msg : String)
  | attributeError (msg : String)
deriving DecidableEq

/-- Python `str.lower()` on an identifier, written over the character list so
that it evaluates by kernel reduction. -/
def pyLower (s : String) : String := String.mk (s.data.map Char.toLower)

/-- `textwrap.indent(body, "    ")`: prefix every line that contains
non-whitespace with four spaces. -/
def textwrapIndent (s : String) : String :=
  String.intercalate "\n"
    ((s.splitOn "\n").map (fun l => if l.trim == "" then l else "    " ++ l))

/-- `render_field` (formatter.py lines 34-47): resolve the field type via
`qualified_type`, then wrap by cardinality; `REQUIRED | None` render the
resolved type unwrapped.  The source's final `TypeError` arm is unreachable
here because `Option Card` covers exactly the values `FieldCardinality`
admits. -/
def render_field (field : FieldA) (message : Ctx) : String :=
  let fieldType := qualified_type message.toScope field.type
  match field.cardinality with
  | some .optional => fieldType ++ " | None"
  | some .repeated => "list[" ++ fieldType ++ "]"
  | _ => fieldType

/-- The sort key of `render_attribute`s message branch (formatter.py line 65):
`lambda e: not isinstance(e, MessageAdapter | ast.Enum)`. -/
def sortKey (e : Elem) : Bool := !isNestedDef e

/-- `sorted(element.elements, key=sortKey)` (formatter.py line 65): Python's
`sorted` is a stable sort, modelled by the stable `List.mergeSort` ordered by
the Boolean key (`false` before `true`). -/
def sortedElements (es : List Elem) : List Elem :=
  es.mergeSort (fun a b => !sortKey a || sortKey b)

/-- `encode_field` (formatter.py lines 97-127): primitive types, enums
declared directly in the message, and top-level enums are assigned by value;
every other type name is treated as a message and encoded recursively. -/
def encode_field (element : FieldA) (message : MsgCtx) : String :=
  let instanceAttr := pyLower message.name ++ "." ++ element.name
  if isPrimitiveName element.type || message.enumNames.contains element.type
      || message.fileEnumNames.contains element.type then
    match element.cardinality with
    | some .repeated =>
        "for item in " ++ instanceAttr ++ ":\n    proto_obj." ++ element.name
          ++ ".append(item)"
    | some .optional =>
        "if " ++ instanceAttr ++ " is not None:\n    proto_obj." ++ element.name
          ++ " = " ++ instanceAttr
    | _ => "proto_obj." ++ element.name ++ " = " ++ instanceAttr
  else
    let qualified := qualified_type message.toScope element.type
    if element.cardinality == some .repeated then
      "for item in " ++ instanceAttr ++ ":\n    " ++ qualified
        ++ ".encode(proto_obj." ++ element.name ++ ".add(), item)"
    else if element.cardinality == some .optional then
      "if " ++ instanceAttr ++ " is not None:\n    temp = proto_obj."
        ++ element.name ++ ".__class__()\n    " ++ qualified ++ ".encode(temp, "
        ++ instanceAttr ++ ")\n    proto_obj." ++ element.name
        ++ ".CopyFrom(temp)"
    else
      qualified ++ ".encode(proto_obj." ++ element.name ++ ", " ++ instanceAttr
        ++ ")"

/-- `decode_field` (formatter.py lines 170-201): mirror of `encode_field` for
the decode direction; the source's final `TypeError` arm is unreachable here
because `Option Card` covers exactly the values `FieldCardinality` admits. -/
def decode_field (field : FieldA) (message : MsgCtx) : String :=
  let instanceField := "proto_obj." ++ field.name
  if isPrimitiveName field.type || message.enumNames.contains field.type
      || message.fileEnumNames.contains field.type then
    match field.cardinality with
    | some .repeated => field.name ++ " = list(" ++ instanceField ++ ")"
    | some .optional =>
        field.name ++ " = " ++ instanceField ++ " if " ++ instanceField
          ++ " is not None and proto_obj.HasField(\"" ++ field.name
          ++ "\") else None"
    | _ => field.name ++ " = " ++ instanceField
  else
    let qualified := qualified_type message.toScope field.type
    if field.cardinality == some .repeated then
      field.name ++ " = [" ++ qualified ++ ".decode(item) for item in "
        ++ instanceField ++ "]"
    else if field.cardinality == some .optional then
      field.name ++ " = " ++ qualified ++ ".decode(" ++ instanceField
        ++ ") if " ++ instanceField ++ " is not None and proto_obj.HasField(\""
        ++ field.name ++ "\") else None"
    else
      field.name ++ " = " ++ qualified ++ ".decode(" ++ instanceField ++ ")"

/-- Short-circuiting element-wise rendering: Python raises out of the
generator on the first failing element. -/
def exceptMapStr (f : Elem → Except PyErr String) :
    List Elem → Except PyErr (List String)
  | [] => .ok []
  | e :: es => do
      let s ← f e
      let rest ← exceptMapStr f es
      .ok (s :: rest)

/-- `render_encoder.encode_element` (formatter.py lines 133-157).  For a
oneof the generated code is one `if isinstance(...)` assignment per member;
a non-`Field` member has no `.type`/`.name`, which Python reports as an
`AttributeError`. -/
def encode_element (element : Elem) (message : MsgCtx) : Except PyErr String :=
  match element with
  | .comment text => .ok ("# " ++ text)
  | .fieldE f => .ok (encode_field f message)
  | .oneofE nm mems =>
      if mems.all isOFieldB then
        .ok (String.intercalate "\n" (mems.map (fun m =>
          let f := oneofFieldD m
          "if isinstance(" ++ pyLower message.name ++ "." ++ nm ++ ", "
            ++ ((primLookup f.type).getD f.type) ++ "):\n    proto_obj."
            ++ f.name ++ " = " ++ pyLower message.name ++ "." ++ nm)))
      else .error (.attributeError "oneof member is not a Field")
  | .mapFieldE nm _ vt =>
      let iterItems := "for key, value in " ++ pyLower message.name ++ "."
        ++ nm ++ ".items():"
      if isPrimitiveName vt then
        .ok (iterItems ++ "\n    proto_obj." ++ nm ++ "[key] = value")
      else if message.fileEnumNames.contains vt then
        .ok (iterItems ++ "\n    proto_obj." ++ nm ++ "[key] = " ++ vt
          ++ "(value)")
      else if message.enumNames.contains vt then
        .ok (iterItems ++ "\n    proto_obj." ++ nm ++ "[key] = "
          ++ message.name ++ "." ++ vt ++ "(value)")
      else
        .ok (iterItems ++ "\n    " ++ qualified_type message.toScope vt
          ++ ".encode(proto_obj." ++ nm ++ "[key], value)")
  | other => .error (.typeError ("Unexpected message type: " ++ elemRepr other))

/-- `render_encoder` (formatter.py lines 130-167): encode statements for every
element that is not a nested `MessageAdapter`/`Enum`, wrapped in the
`@staticmethod def encode(...)` header. -/
def render_encoder (message : MsgCtx) (elements : List Elem) :
    Except PyErr String := do
  let strs ← exceptMapStr (fun e => encode_element e message)
    (elements.filter (fun e => !isNestedDef e))
  let inner := String.intercalate "\n" strs
  .ok ("@staticmethod\ndef encode(proto_obj, " ++ pyLower message.name ++ ": "
    ++ message.name ++ ") -> None:\n    \"\"\"Encode " ++ message.name
    ++ " to protobuf.\"\"\"\n\n" ++ textwrapIndent inner ++ "\n")

/-- `render_decoder.decode_element` (formatter.py lines 207-232).  For a
oneof the generated code is one `if proto_obj.HasField(...)` assignment of
the oneof-named local per member. -/
def decode_element (element : Elem) (message : MsgCtx) : Except PyErr String :=
  match element with
  | .comment text => .ok ("# " ++ text)
  | .fieldE f => .ok (decode_field f message)
  | .oneofE nm mems =>
      if mems.all isOFieldB then
        .ok (String.intercalate "\n" (mems.map (fun m =>
          let f := oneofFieldD m
          "if proto_obj.HasField(\"" ++ f.name ++ "\"):\n    " ++ nm
            ++ " = proto_obj." ++ f.name)))
      else .error (.attributeError "oneof member is not a Field")
  | .mapFieldE nm _ vt =>
      let iterItems := nm ++ " = \x7b\x7d\nfor key, value in proto_obj." ++ nm
        ++ ".items():"
      if isPrimitiveName vt then
        .ok (nm ++ " = dict(proto_obj." ++ nm ++ ")")
      else if message.fileEnumNames.contains vt then
        .ok (iterItems ++ "\n    " ++ nm ++ "[key] = " ++ vt ++ "(value)")
      else if message.enumNames.contains vt then
        .ok (iterItems ++ "\n    " ++ nm ++ "[key] = " ++ message.name ++ "."
          ++ vt ++ "(value)")
      else
        .ok (nm ++ " = \x7b key: " ++ qualified_type message.toScope vt
          ++ ".decode(item) for key, item in proto_obj." ++ nm
          ++ ".items() \x7d")
  | other =>
      .error (.typeError ("Unexpected message element type: " ++ elemRepr other))

/-- `render_decoder.constructor_kwargs` (formatter.py lines 234-236): one
`name=name` keyword per `Field`/`MapField`/`OneOf` element, in element
order. -/
def constructor_kwargs (elements : List Elem) : String :=
  String.intercalate ",\n    "
    ((elements.filter isCtorElem).map (fun e => elemName e ++ "=" ++ elemName e))

/-- The keyword-argument names supplied by the constructor call emitted at the
end of the generated `decode` (the names joined by `constructor_kwargs`). -/
def ctorKwargNames (elements : List Elem) : List String :=
  (elements.filter isCtorElem).map elemName

/-- `render_decoder` (formatter.py lines 204-247): decode statements for every
element that is not a nested `MessageAdapter`/`Enum`, then the constructor
call, wrapped in the `@classmethod def decode(...)` header. -/
def render_decoder (message : MsgCtx) (elements : List Elem) :
    Except PyErr String := do
  let constructor := "return cls(\n    " ++ constructor_kwargs elements ++ "\n)"
  let strs ← exceptMapStr (fun e => decode_element e message)
    (elements.filter (fun e => !isNestedDef e))
  let inner := String.intercalate "\n" strs ++ "\n\n" ++ constructor
  .ok ("@classmethod\ndef decode(cls, proto_obj) -> " ++ message.name
    ++ ":\n    \"\"\"Decode proto_obj to " ++ message.name ++ ".\"\"\"\n\n"
    ++ textwrapIndent inner ++ "\n")

/-- A permutation of a list leaves its `sizeOf` unchanged (used for the
termination of `render_attribute`, which recurses into the stably sorted
element list). -/
theorem sizeOf_eq_of_perm {α} [SizeOf α] {l₁ l₂ : List α} (h : l₁.Perm l₂) :
    sizeOf l₁ = sizeOf l₂ := by
  induction h with
  | nil => rfl
  | cons a _ ih => simp only [List.cons.sizeOf_spec]; omega
  | swap a b l => simp only [List.cons.sizeOf_spec]; omega
  | trans _ _ ih₁ ih₂ => omega

/-- Stable sorting preserves `sizeOf`. -/
theorem sizeOf_sortedElements (es : List Elem) :
    sizeOf (sortedElements es) = sizeOf es :=
  sizeOf_eq_of_perm (List.mergeSort_perm es _)

mutual

/-- `render_attribute` (formatter.py lines 50-85): dispatch on the element
kind; a nested message renders its elements with nested type definitions
sorted first, followed by its generated encoder and decoder; oneofs holding a
non-`Field` and the legacy `Group`/`Option`/`ExtensionRange`/`Reserved`/
`Extension` kinds raise `NotImplementedError`.  The source's final
`TypeError` arm is unreachable here because `Elem` covers exactly the
`MessageElement | MessageAdapter` kinds the match names. -/
def render_attribute (element : Elem) (message : Ctx) : Except PyErr String :=
  match element with
  | .comment text => .ok ("# " ++ text)
  | .fieldE f => .ok (f.name ++ ": " ++ render_field f message)
  | .oneofE nm mems =>
      if mems.all isOFieldB then
        .ok (nm ++ ": " ++ String.intercalate " | "
          (mems.map (fun m => render_field (oneofFieldD m) message)))
      else .error (.notImplementedError "Only implemented OneOf for Field")
  | .messageA nm elems =>
      let elementCtx := childCtx message nm elems
      do
        let rendered ← renderAttrList (sortedElements elems) (.msgC elementCtx)
        let inner := String.intercalate "\n" rendered
        let encoder ← render_encoder elementCtx elems
        let decoder ← render_decoder elementCtx elems
        let body := inner ++ "\n\n" ++ encoder ++ "\n\n" ++ decoder
        .ok ("\nclass " ++ nm ++ "(BaseModel):\n    \"\"\"" ++ nm
          ++ "\"\"\"\n\n" ++ textwrapIndent body ++ "\n")
  | .enumE nm members =>
      let membersStr := String.intercalate "\n"
        (members.map (fun v => v.1 ++ " = " ++ toString v.2))
      .ok ("class " ++ nm ++ "(IntEnum):\n    \"\"\"" ++ nm ++ "\"\"\"\n\n"
        ++ textwrapIndent membersStr ++ "\n")
  | .mapFieldE nm kt vt =>
      let keyType := (primLookup kt).getD kt
      let valueType := qualified_type message.toScope vt
      .ok (nm ++ ": dict[" ++ keyType ++ ", " ++ valueType ++ "]")
  | .groupE => .error (.notImplementedError (elemRepr .groupE))
  | .optionE => .error (.notImplementedError (elemRepr .optionE))
  | .extensionRangeE => .error (.notImplementedError (elemRepr .extensionRangeE))
  | .reservedE => .error (.notImplementedError (elemRepr .reservedE))
  | .extensionE => .error (.notImplementedError (elemRepr .extensionE))
termination_by sizeOf element
decreasing_by
  all_goals simp only [sizeOf_sortedElements, Elem.messageA.sizeOf_spec]
  all_goals omega

/-- `"\n".join(render_attribute(e, element) for e in elements)` — renders each
element in order, propagating the first raised exception. -/
def renderAttrList (es : List Elem) (ctx : Ctx) : Except PyErr (List String) :=
  match es with
  | [] => .ok []
  | e :: rest => do
      let s ← render_attribute e ctx
      let r ← renderAttrList rest ctx
      .ok (s :: r)
termination_by sizeOf es

end

/-- A raw parsed AST node as seen by `MessageAdapter.from_message`
(adapters.py lines 73-103): the adapter dispatches on
`camel_to_snake(element.__class__.__name__)` and on `isinstance(element,
Message)` only, so each recognized kind is a constructor and `rUnknown`
carries the class name of a node of any other class. -/
inductive RawElem where
  | rComment
  | rField
  | rGroup
  | rOneOf
  | rOption
  | rExtensionRange
  | rReserved
  | rEnum
  | rExtension
  | rMapField
  | rMessage (name : String) (elements : List RawElem)
  | rUnknown (className : String)

/-- `element.__class__.__name__`. -/
def rawClassName : RawElem → String
  | .rComment => "Comment"
  | .rField => "Field"
  | .rGroup => "Group"
  | .rOneOf => "OneOf"
  | .rOption => "Option"
  | .rExtensionRange => "ExtensionRange"
  | .rReserved => "Reserved"
  | .rEnum => "Enum"
  | .rExtension => "Extension"
  | .rMapField => "MapField"
  | .rMessage _ _ => "Message"
  | .rUnknown c => c

/-- The keys of `grouped_elements`, built from the member classes of the
`MessageElement` union (adapters.py line 78). -/
def messageElementKinds : List String :=
  (["Comment", "Field", "Group", "OneOf", "Option", "ExtensionRange",
    "Reserved", "Message", "Enum", "Extension", "MapField"]).map camel_to_snake

/-- The adapted tree produced by `from_message`: non-message elements are kept
as they are (summarized here by their kind key), nested messages become
adapters carrying their `fully_qualified_name`. -/
inductive Adapted where
  | aRaw (kind : String)
  | aMsg (fullyQualifiedName : String) (elements : List Adapted)

mutual

/-- `MessageAdapter.from_message(message, parent_prefix)` (adapters.py lines
73-103): convert each element (recursing into nested messages with the
extended path prefix) and build the adapter with `fully_qualified_name =
parent_prefix + message.name`. -/
def from_message (name : String) (elements : List RawElem)
    (parentPath : String) : Except String Adapted := do
  let adapted ← adaptElems elements (parentPath ++ name ++ ".")
  .ok (.aMsg (parentPath ++ name) adapted)

/-- One iteration of the element loop of `from_message` (adapters.py lines
79-84): compute the kind key `camel_to_snake(element.__class__.__name__)`,
convert a nested message recursively, and group any other element under its
key — `grouped_elements[key]` raises `KeyError(key)` when the key is outside
the dictionary built from the `MessageElement` union, modelled as
`.error key`. -/
def adaptElem (e : RawElem) (childPath : String) : Except String Adapted :=
  match e with
  | .rMessage n nes => from_message n nes childPath
  | _ =>
      let key := camel_to_snake (rawClassName e)
      if messageElementKinds.contains key then .ok (.aRaw key)
      else .error key

/-- The element loop of `from_message` (adapters.py lines 79-84), elements in
order, failing on the first unrecognized kind. -/
def adaptElems (es : List RawElem) (childPath : String) :
    Except String (List Adapted) :=
  match es with
  | [] => .ok []
  | e :: rest => do
      let a ← adaptElem e childPath
      let r ← adaptElems rest childPath
      .ok (a :: r)

end

/-!
Semantic model of the generated codec pair.  `render_encoder`/`render_decoder`
emit one `encode`/`decode` function per message, composed from the per-field
statements of `encode_field`/`decode_field`/`encode_element`/`decode_element`.
The definitions below give those generated statements their runtime meaning
over explicit model and wire values, for schemas on which the generators'
syntactic kind dispatch agrees with the resolved kind of every field:
primitives, enums (integer-valued), nested messages, oneofs over primitive
member fields, and maps.  Wire oneof members are mutually exclusive by
construction (spec section 3): setting one member clears its siblings, so the
wire oneof is a single optional slot.
-/

/-- Primitive scalar kinds. -/
inductive PrimTy where
  | ptInt
  | ptStr
  | ptBool
deriving DecidableEq

/-- Primitive scalar values. -/
inductive PV where
  | pInt (i : Int)
  | pStr (s : String)
  | pBool (b : Bool)
deriving DecidableEq

/-- The primitive kind of a value — `isinstance(v, T)` for the rendered
primitive type `T`. -/
def pvTy : PV → PrimTy
  | .pInt _ => .ptInt
  | .pStr _ => .ptStr
  | .pBool _ => .ptBool

/-- The protobuf default value a wire getter returns for an unset scalar
field. -/
def defaultPV : PrimTy → PV
  | .ptInt => .pInt 0
  | .ptStr => .pStr ""
  | .ptBool => .pBool false

/-- A schema type, with the codec-relevant elements of a message fused into
the type as a chain: a message type is a `sMsgF`/`sMsgO`/`sMsgM` chain ending
in `sMsgNil`, one link per `Field`/`OneOf`/`MapField` element in declaration
order (nested `Message`/`Enum` definitions are not codec elements: both
generators filter them out).

An enum type carries the outcome of the generators' syntactic membership
test `type in PRIMITIVE_TYPE_MAP or type in message.enum_names or type in
message.file.enum_names` (formatter.py lines 101-105 and 174; the same test
on `value_type` at lines 146-153 and 219-229): `recognized = true` for an
enum declared directly in the referencing message or at file top level,
`recognized = false` for an enum declared only in an intermediate ancestor
message scope, which the generators dispatch into the message branch.

Oneof members are primitive-typed member fields: the generated member branch
(formatter.py lines 139-143, 213-217) assigns the wire member field directly,
which the wire API only accepts for scalar fields; message-typed oneof
members are outside the modelled domain. -/
inductive Sch where
  | sPrim (p : PrimTy)
  | sEnum (recognized : Bool)
  | sMsgNil
  | sMsgF (name : String) (card : Option Card) (ty : Sch) (rest : Sch)
  | sMsgO (name : String) (members : List (String × PrimTy)) (rest : Sch)
  | sMsgM (name : String) (keyTy : PrimTy) (valTy : Sch) (rest : Sch)
deriving DecidableEq

/-- Model values, one shape per field kind of the generated pydantic model. -/
inductive MV where
  | mPrim (v : PV)
  | mOptPrim (v : Option PV)
  | mListPrim (vs : List PV)
  | mMsg (fields : List MV)
  | mOptMsg (v : Option MV)
  | mListMsg (vs : List MV)
  | mMap (kvs : List (PV × MV))

/-- Wire cells, one per codec element of a message: scalar cells carry a
presence flag (`HasField`), submessage cells are either unset or a nested
wire message, and a oneof is one exclusive slot. -/
inductive WF where
  | wScalar (v : Option PV)
  | wList (vs : List PV)
  | wSub (w : Option (List WF))
  | wSubList (ws : List (List WF))
  | wOneof (slot : Option (String × PV))
  | wMap (kvs : List (PV × WF))

/-- Field list of a model message value (total; used under typing). -/
def msgFields : MV → List MV
  | .mMsg fs => fs
  | _ => []

/-- Key-value list of a model map value (total; used under typing). -/
def mapKVs : MV → List (PV × MV)
  | .mMap kvs => kvs
  | _ => []

/-- `v.pInt?` — whether a value is an integer (an enum value). -/
def isIntPV : PV → Bool
  | .pInt _ => true
  | _ => false

/-- The fresh wire object handed to the generated `encode`
(`fresh_wire_object()`): every scalar and submessage unset, every repeated
field and map empty, the oneof slot empty. -/
def freshBody : Sch → List WF
  | .sMsgF _ card ty rest =>
      (match card, ty with
       | some .repeated, .sPrim _ => .wList []
       | some .repeated, .sEnum _ => .wList []
       | some .repeated, _ => .wSubList []
       | _, .sPrim _ => .wScalar none
       | _, .sEnum _ => .wScalar none
       | _, _ => .wSub none) :: freshBody rest
  | .sMsgO _ _ rest => .wOneof none :: freshBody rest
  | .sMsgM _ _ _ rest => .wMap [] :: freshBody rest
  | _ => []

/-- Short-circuiting traversal in the `Option` monad (`List.mapM`
specialised, with plain recursion equations). -/
def mapMOpt {α β : Type} (f : α → Option β) : List α → Option (List β)
  | [] => some []
  | a :: l => do
      let b ← f a
      let r ← mapMOpt f l
      some (b :: r)

/-- Whether every enum type occurring in a schema — as a field type or a map
value type, at any nesting depth — passes the generators' membership test
(is declared in the referencing message itself or at file top level).  On
this domain the generated codecs take the direct-assignment path for every
enum; outside it they emit recursive message-codec calls on `IntEnum`
classes, which crash (see C6). -/
def recognizedEnums : Sch → Bool
  | .sPrim _ => true
  | .sEnum r => r
  | .sMsgNil => true
  | .sMsgF _ _ ty rest => recognizedEnums ty && recognizedEnums rest
  | .sMsgO _ _ rest => recognizedEnums rest
  | .sMsgM _ _ valTy rest => recognizedEnums valTy && recognizedEnums rest

mutual

/-- Typing of a single required-position value against a type: used for
required fields and for map values. -/
def typedVal : Sch → MV → Bool
  | .sPrim p, .mPrim pv => pvTy pv == p
  | .sPrim _, _ => false
  | .sEnum _, .mPrim pv => isIntPV pv
  | .sEnum _, _ => false
  | msgty, .mMsg fs => typedBody msgty fs
  | _, _ => false

/-- The message-typed case of `typedCell`. -/
def typedCellMsg (card : Option Card) (msgty : Sch) (v : MV) : Bool :=
  match card, v with
  | some .repeated, .mListMsg ms =>
      ms.all (fun mv => match mv with
        | .mMsg fs => typedBody msgty fs
        | _ => false)
  | some .optional, .mOptMsg none => true
  | some .optional, .mOptMsg (some (.mMsg fs)) => typedBody msgty fs
  | some .required, .mMsg fs => typedBody msgty fs
  | none, .mMsg fs => typedBody msgty fs
  | _, _ => false

/-- Typing of one model cell against a field descriptor: the value shape
matches the field's cardinality and resolved type. -/
def typedCell (card : Option Card) (ty : Sch) (v : MV) : Bool :=
  match ty with
  | .sPrim p =>
      (match card, v with
       | some .repeated, .mListPrim pvs => pvs.all (fun pv => pvTy pv == p)
       | some .optional, .mOptPrim none => true
       | some .optional, .mOptPrim (some pv) => pvTy pv == p
       | some .required, .mPrim pv => pvTy pv == p
       | none, .mPrim pv => pvTy pv == p
       | _, _ => false)
  | .sEnum _ =>
      (match card, v with
       | some .repeated, .mListPrim pvs => pvs.all isIntPV
       | some .optional, .mOptPrim none => true
       | some .optional, .mOptPrim (some pv) => isIntPV pv
       | some .required, .mPrim pv => isIntPV pv
       | none, .mPrim pv => isIntPV pv
       | _, _ => false)
  | msgty => typedCellMsg card msgty v

/-- Typing of a model instance against a message chain (`valid instance`,
spec section 8): one well-shaped value per codec element; a oneof holds one
primitive value whose type matches some member; map keys match the declared
key type and map values are typed like required values. -/
def typedBody : Sch → List MV → Bool
  | .sMsgNil, [] => true
  | .sMsgF _ card ty rest, v :: vs => typedCell card ty v && typedBody rest vs
  | .sMsgO _ members rest, v :: vs =>
      (match v with
       | .mPrim pv => members.any (fun m => m.2 == pvTy pv)
       | _ => false) && typedBody rest vs
  | .sMsgM _ kt valTy rest, v :: vs =>
      (match v with
       | .mMap kvs => kvs.all (fun kv => pvTy kv.1 == kt && typedVal valTy kv.2)
       | _ => false) && typedBody rest vs
  | _, _ => false

end

/-- The guard list of the generated oneof encode statements (formatter.py
lines 139-143): one `if isinstance(model.<oneof>, T_member): proto_obj.<member>
= model.<oneof>` per member, in member order, with no `elif` — the names of
all members whose guard holds on the model's union value. -/
def oneofFiredMembers (members : List (String × PrimTy)) (v : PV) :
    List String :=
  (members.filter (fun m => m.2 == pvTy v)).map Prod.fst

/-- The wire oneof slot after running the generated oneof encode statements on
a fresh wire object: each member whose `isinstance` guard holds assigns its
wire field in order, and the wire's oneof exclusivity makes each assignment
displace the previous one, so the last matching member owns the slot. -/
def encodeOneof (members : List (String × PrimTy)) (v : MV) :
    Option (String × PV) :=
  match v with
  | .mPrim pv =>
      members.foldl
        (fun slot m => if m.2 == pvTy pv then some (m.1, pv) else slot) none
  | _ => none

/-- The generated oneof decode statements (formatter.py lines 213-217): one
`if proto_obj.HasField(member): <oneof> = proto_obj.<member>` per member, in
member order; the union local ends up assigned only if some member is present,
otherwise the trailing constructor call raises `NameError`, modelled as
`none`. -/
def decodeOneof (members : List (String × PrimTy))
    (slot : Option (String × PV)) : Option MV :=
  (members.foldl
    (fun acc m =>
      match slot with
      | some (n, pv) => if m.1 == n then some pv else acc
      | none => acc) none).map .mPrim

mutual

/-- The value of a map entry produced by the generated encode: scalar and
recognized-enum values are copied (the `EnumType(value)` conversion is the
identity on the underlying integer), message values are encoded recursively
(formatter.py lines 144-154).  An unrecognized enum value type fails all
three membership tests, so the generated statement is
`<Qualified>.encode(proto_obj.<name>[key], value)` — an attribute access on
an `IntEnum` class that defines no `encode`, a runtime crash modelled as
`none`. -/
def encodeVal : Sch → MV → Option WF
  | .sPrim _, .mPrim pv => some (.wScalar (some pv))
  | .sPrim _, _ => some (.wScalar none)
  | .sEnum true, .mPrim pv => some (.wScalar (some pv))
  | .sEnum true, _ => some (.wScalar none)
  | .sEnum false, _ => none
  | mty, mv => (encodeBody mty (msgFields mv)).map (fun w => .wSub (some w))

/-- The message-typed case of `encodeCell`. -/
def encodeCellMsg (card : Option Card) (msgty : Sch) (v : MV) : Option WF :=
  match card, v with
  | some .repeated, .mListMsg ms =>
      (mapMOpt (fun mv => encodeBody msgty (msgFields mv)) ms).map .wSubList
  | some .optional, .mOptMsg none => some (.wSub none)
  | some .optional, .mOptMsg (some mv) =>
      (encodeBody msgty (msgFields mv)).map (fun w => .wSub (some w))
  | _, .mMsg fs => (encodeBody msgty fs).map (fun w => .wSub (some w))
  | _, _ => some (.wSub none)

/-- One wire cell produced by the generated encode for one field element
(`encode_field`, formatter.py lines 97-127): the membership test at lines
101-105 sends primitives and recognized enums into the by-value branch
(guarded on presence when OPTIONAL, appended in order when REPEATED) and
everything else — message types, but also enums declared only in an ancestor
message scope — into the recursive branch.  For an unrecognized enum the
recursive branch emits `<Qualified>.encode(...)` on an `IntEnum` class that
defines no `encode`, a runtime crash modelled as `none`. -/
def encodeCell (card : Option Card) (ty : Sch) (v : MV) : Option WF :=
  match ty with
  | .sPrim _ =>
      some (match card, v with
       | some .repeated, .mListPrim pvs => .wList pvs
       | some .optional, .mOptPrim o => .wScalar o
       | _, .mPrim pv => .wScalar (some pv)
       | _, _ => .wScalar none)
  | .sEnum true =>
      some (match card, v with
       | some .repeated, .mListPrim pvs => .wList pvs
       | some .optional, .mOptPrim o => .wScalar o
       | _, .mPrim pv => .wScalar (some pv)
       | _, _ => .wScalar none)
  | .sEnum false => none
  | msgty => encodeCellMsg card msgty v

/-- The generated `encode(proto_obj, model)` run on a fresh wire object: one
wire cell per codec element, in element order (`render_encoder`, formatter.py
lines 130-167); `none` when any emitted statement crashes at runtime. -/
def encodeBody : Sch → List MV → Option (List WF)
  | .sMsgF _ card ty rest, v :: vs => do
      let w ← encodeCell card ty v
      let r ← encodeBody rest vs
      some (w :: r)
  | .sMsgO _ members rest, v :: vs => do
      let r ← encodeBody rest vs
      some (.wOneof (encodeOneof members v) :: r)
  | .sMsgM _ _ valTy rest, v :: vs => do
      let kvw ← mapMOpt (fun kv => (encodeVal valTy kv.2).map (fun w => (kv.1, w)))
        (mapKVs v)
      let r ← encodeBody rest vs
      some (.wMap kvw :: r)
  | _, _ => some []

end

mutual

/-- The model value of a map entry read back by the generated decode
(formatter.py lines 218-229): scalar and recognized-enum entries are copied,
message entries are decoded recursively; a map whose value type is an
unrecognized enum fails all three membership tests, so the generated
dict-comprehension calls `<Qualified>.decode(item)` on an `IntEnum` class
that defines no `decode`, a runtime crash modelled as `none`. -/
def decodeVal : Sch → WF → Option MV
  | .sPrim _, .wScalar (some pv) => some (.mPrim pv)
  | .sPrim _, _ => none
  | .sEnum true, .wScalar (some pv) => some (.mPrim pv)
  | .sEnum true, _ => none
  | .sEnum false, _ => none
  | mty, .wSub (some wm) => (decodeBody mty wm).map .mMsg
  | _, _ => none

/-- The message-typed case of `decodeCell`. -/
def decodeCellMsg (card : Option Card) (msgty : Sch) (w : WF) : Option MV :=
  match card, w with
  | some .repeated, .wSubList wss =>
      (mapMOpt (fun wm => (decodeBody msgty wm).map MV.mMsg) wss).map .mListMsg
  | some .optional, .wSub none => some (.mOptMsg none)
  | some .optional, .wSub (some wm) =>
      (decodeBody msgty wm).map (fun fs => .mOptMsg (some (.mMsg fs)))
  | some .required, .wSub o =>
      (decodeBody msgty (o.getD (freshBody msgty))).map .mMsg
  | none, .wSub o =>
      (decodeBody msgty (o.getD (freshBody msgty))).map .mMsg
  | _, _ => none

/-- One model cell read back by the generated decode for one field element
(`decode_field`, formatter.py lines 170-201): the membership test at line 174
sends primitives and recognized enums into the by-value branch, which reads
the wire field (the type default when a required field is unset, `None` when
an optional field is not marked present); an enum declared only in an
ancestor message scope fails the test, and the emitted
`<Qualified>.decode(...)` call on an `IntEnum` class crashes, modelled as
`none`; message types decode recursively
(`HasField`-guarded when OPTIONAL, element-wise when REPEATED). -/
def decodeCell (card : Option Card) (ty : Sch) (w : WF) : Option MV :=
  match ty with
  | .sPrim p =>
      (match card, w with
       | some .repeated, .wList pvs => some (.mListPrim pvs)
       | some .optional, .wScalar o => some (.mOptPrim o)
       | some .required, .wScalar o => some (.mPrim (o.getD (defaultPV p)))
       | none, .wScalar o => some (.mPrim (o.getD (defaultPV p)))
       | _, _ => none)
  | .sEnum true =>
      (match card, w with
       | some .repeated, .wList pvs => some (.mListPrim pvs)
       | some .optional, .wScalar o => some (.mOptPrim o)
       | some .required, .wScalar o => some (.mPrim (o.getD (.pInt 0)))
       | none, .wScalar o => some (.mPrim (o.getD (.pInt 0)))
       | _, _ => none)
  | .sEnum false => none
  | msgty => decodeCellMsg card msgty w

/-- The generated `decode(proto_obj)` (`render_decoder`, formatter.py lines
204-247): one local per codec element in element order, then the constructor
call; a runtime failure anywhere (including the `NameError` of an unassigned
oneof local) yields `none` instead of a model instance. -/
def decodeBody : Sch → List WF → Option (List MV)
  | .sMsgNil, [] => some []
  | .sMsgF _ card ty rest, w :: ws => do
      let v ← decodeCell card ty w
      let r ← decodeBody rest ws
      some (v :: r)
  | .sMsgO _ members rest, w :: ws =>
      (match w with
       | .wOneof slot => do
           let v ← decodeOneof members slot
           let r ← decodeBody rest ws
           some (v :: r)
       | _ => none)
  | .sMsgM _ _ valTy rest, w :: ws =>
      (match w with
       | .wMap kvs => do
           let v ← (mapMOpt (fun (kv : PV × WF) =>
             (decodeVal valTy kv.2).map (fun mv => (kv.1, mv))) kvs).map MV.mMap
           let r ← decodeBody rest ws
           some (v :: r)
       | _ => none)
  | _, _ => none

end


/-- Whether the wire object passed to the generated decode has, at the
position of some oneof element of the message, an empty oneof slot (no member
marked present). -/
def oneofUnsetAt : Sch → List WF → Bool
  | .sMsgO _ _ _, .wOneof none :: _ => true
  | .sMsgO _ _ rest, _ :: ws => oneofUnsetAt rest ws
  | .sMsgF _ _ _ rest, _ :: ws => oneofUnsetAt rest ws
  | .sMsgM _ _ _ rest, _ :: ws => oneofUnsetAt rest ws
  | _, _ => false

/-- Whether any message scope of the chain declares the name among its local
`enum_names`/`message_names`. -/
def declaresInChain (t : String) : Scope → Bool
  | .noneS => false
  | .fileS _ _ => false
  | .msgS _ ens mns parent =>
      ens.contains t || mns.contains t || declaresInChain t parent

/-- A chain of message scopes stacked below a given base scope. -/
def buildChain : List (String × List String × List String) → Scope → Scope
  | [], base => base
  | (fqn, ens, mns) :: rest, base => .msgS fqn ens mns (buildChain rest base)

/-- The failing input for C6: message `Inner` nested in `Outer`, where
`Outer` declares `enum Color` and `Inner` has `required Color color` — the
enum is in an ancestor message scope, so it is in neither
`Inner.enum_names` nor `Inner.file.enum_names`. -/
def innerCtxC6 : MsgCtx :=
  { name := "Inner"
    fqn := "Outer.Inner"
    enumNames := []
    messageNames := []
    parent := .msgS "Outer" ["Color"] ["Inner"] (.fileS [] ["Outer"])
    fileEnumNames := [] }

/-- Witness elements for C7: a comment, an enum, a field, a nested message, a
oneof, and a map field, interleaved. -/
def demoElemsC7 : List Elem :=
  [.comment "c", .enumE "E" [("A", 0)],
   .fieldE ⟨"x", "int32", some .required⟩, .messageA "N" [],
   .oneofE "pick" [.oField ⟨"a", "int32", none⟩],
   .mapFieldE "m" "string" "int32"]

/-- Witness schema for C10: `required int32 x` then `oneof pick { int32 a }`. -/
def schC10 : Sch :=
  .sMsgF "x" (some .required) (.sPrim .ptInt)
    (.sMsgO "pick" [("a", .ptInt)] .sMsgNil)

/-- Witness schema for C1, exercising every field kind of the amended law: a
required and an optional primitive, a required recognized enum, a repeated
primitive, a required and an optional nested message, a repeated nested
message, a oneof, and a map with message values. -/
def schC1 : Sch :=
  .sMsgF "x" (some .required) (.sPrim .ptInt)
  (.sMsgF "kind" (some .required) (.sEnum true)
  (.sMsgF "label" (some .optional) (.sPrim .ptStr)
  (.sMsgF "flags" (some .repeated) (.sPrim .ptBool)
  (.sMsgF "inner" (some .required)
      (.sMsgF "v" (some .required) (.sPrim .ptInt) .sMsgNil)
  (.sMsgF "maybe" (some .optional)
      (.sMsgF "v" (some .required) (.sPrim .ptInt) .sMsgNil)
  (.sMsgF "many" (some .repeated)
      (.sMsgF "v" (some .required) (.sPrim .ptInt) .sMsgNil)
  (.sMsgO "pick" [("a", .ptInt), ("b", .ptStr)]
  (.sMsgM "counts" .ptStr
      (.sMsgF "v" (some .required) (.sPrim .ptInt) .sMsgNil) .sMsgNil))))))))

/-- Witness instance for C1. -/
def valC1 : List MV :=
  [.mPrim (.pInt 3), .mPrim (.pInt 2), .mOptPrim none,
   .mListPrim [.pBool true, .pBool false],
   .mMsg [.mPrim (.pInt 7)], .mOptMsg (some (.mMsg [.mPrim (.pInt 8)])),
   .mListMsg [.mMsg [.mPrim (.pInt 1)], .mMsg [.mPrim (.pInt 2)]],
   .mPrim (.pStr "hi"),
   .mMap [(.pStr "k1", .mMsg [.mPrim (.pInt 4)])]]

/-- C1 counterexample schema: `message Outer { enum Color {...} message
Inner { required Color color; } }` seen from `Inner` — one REQUIRED field
whose type is an enum declared only in the ancestor scope, so it fails the
generators' membership test (it is in neither the primitive table, nor
`Inner.enum_names`, nor `file.enum_names`) and both codecs dispatch it into
the recursive message branch (see C6). -/
def schAncestorEnum : Sch :=
  .sMsgF "color" (some .required) (.sEnum false) .sMsgNil

/-- C1 counterexample instance: the valid model `Inner(color=1)`. -/
def valAncestorEnum : List MV := [.mPrim (.pInt 1)]

/-- A guarded `foldl` that never fires leaves the accumulator unchanged. -/
theorem foldl_no_hit {α β : Type} (cond : α → Bool) (upd : α → β)
    (l : List α) (init : β) (h : ∀ a ∈ l, cond a = false) :
    l.foldl (fun acc a => if cond a then upd a else acc) init = init := by
  induction l generalizing init with
  | nil => rfl
  | cons a l ih =>
      have ha := h a (by simp)
      simp only [List.foldl_cons, ha, if_neg]
      exact ih init (fun b hb => h b (by simp [hb]))

/-- If some member type matches, the oneof encode fold lands on a matching
member's slot, and that member is one of the oneof's members. -/
theorem encodeOneof_hits (pv : PV) :
    ∀ (members : List (String × PrimTy)) (init : Option (String × PV)),
      members.any (fun m => m.2 == pvTy pv) = true →
      ∃ n, members.foldl
          (fun slot m => if m.2 == pvTy pv then some (m.1, pv) else slot)
          init = some (n, pv) ∧ n ∈ members.map Prod.fst := by
  intro members
  induction members with
  | nil => intro init h; simp at h
  | cons m ms ih =>
      intro init h
      by_cases hms : ms.any (fun x => x.2 == pvTy pv) = true
      · obtain ⟨n, hn, hmem⟩ := ih _ hms
        exact ⟨n, hn, by simp [hmem]⟩
      · have hm : (m.2 == pvTy pv) = true := by
          simp only [List.any_cons, Bool.or_eq_true] at h
          rcases h with h | h
          · exact h
          · exact absurd h hms
        refine ⟨m.1, ?_, by simp⟩
        simp only [List.foldl_cons, hm, if_pos]
        exact foldl_no_hit _ _ ms _ (fun a ha => by
          rcases Bool.eq_false_or_eq_true (a.2 == pvTy pv) with htr | hf
          · exact absurd (by simp only [List.any_eq_true]; exact ⟨a, ha, htr⟩) hms
          · exact hf)

/-- If the slot names one of the members, the oneof decode fold reads the
slot's value. -/
theorem decodeOneof_reads (n : String) (pv : PV) :
    ∀ (members : List (String × PrimTy)) (init : Option PV),
      n ∈ members.map Prod.fst →
      members.foldl
        (fun acc m => if m.1 == n then some pv else acc) init = some pv := by
  intro members
  induction members with
  | nil => intro init h; simp at h
  | cons m ms ih =>
      intro init h
      by_cases hms : n ∈ ms.map Prod.fst
      · exact ih _ hms
      · have hm : m.1 = n := by
          simp only [List.map_cons, List.mem_cons] at h
          rcases h with h | h
          · exact h.symm
          · exact absurd h hms
        simp only [List.foldl_cons, hm, beq_self_eq_true, if_pos]
        exact foldl_no_hit (fun (m : String × PrimTy) => m.1 == n)
          (fun _ => some pv) ms _ (fun a ha => by
            rcases Bool.eq_false_or_eq_true (a.1 == n) with htr | hf
            · exact absurd (by
                simp only [List.mem_map]
                exact ⟨a, ha, by simpa using htr⟩) hms
            · exact hf)

/-- Round trip of one oneof element: a valid union value (its type matches
some member) survives encode then decode. -/
theorem decodeOneof_encodeOneof (members : List (String × PrimTy)) (pv : PV)
    (h : members.any (fun m => m.2 == pvTy pv) = true) :
    decodeOneof members (encodeOneof members (.mPrim pv)) = some (.mPrim pv) := by
  obtain ⟨n, hn, hmem⟩ := encodeOneof_hits pv members none h
  simp only [encodeOneof, hn, decodeOneof]
  rw [show (fun (acc : Option PV) (m : String × PrimTy) =>
        match some (n, pv) with
        | some (n, pv) => if m.1 == n then some pv else acc
        | none => acc)
      = fun acc m => if m.1 == n then some pv else acc from rfl]
  rw [decodeOneof_reads n pv members none hmem]
  rfl

/-- Round trip of one required-position value (a required field or a map
entry), given the round trip of the referenced message type. -/
theorem rt_val (ty : Sch)
    (ih : ∀ fs, typedBody ty fs = true →
      (encodeBody ty fs).bind (fun w => decodeBody ty w) = some fs)
    (hrec : recognizedEnums ty = true)
    (v : MV) (h : typedVal ty v = true) :
    (encodeVal ty v).bind (fun w => decodeVal ty w) = some v := by
  cases ty with
  | sPrim p => cases v <;> simp_all [typedVal, encodeVal, decodeVal]
  | sEnum r =>
      cases r with
      | false => simp [recognizedEnums] at hrec
      | true => cases v <;> simp_all [typedVal, encodeVal, decodeVal]
  | sMsgNil =>
      cases v <;> simp [typedVal] at h
      all_goals
        obtain ⟨w, hw, hd⟩ := Option.bind_eq_some.mp (ih _ h)
        simp [encodeVal, msgFields, hw, decodeVal, hd]
  | sMsgF a b c d =>
      cases v <;> simp [typedVal] at h
      all_goals
        obtain ⟨w, hw, hd⟩ := Option.bind_eq_some.mp (ih _ h)
        simp [encodeVal, msgFields, hw, decodeVal, hd]
  | sMsgO a b c =>
      cases v <;> simp [typedVal] at h
      all_goals
        obtain ⟨w, hw, hd⟩ := Option.bind_eq_some.mp (ih _ h)
        simp [encodeVal, msgFields, hw, decodeVal, hd]
  | sMsgM a b c d =>
      cases v <;> simp [typedVal] at h
      all_goals
        obtain ⟨w, hw, hd⟩ := Option.bind_eq_some.mp (ih _ h)
        simp [encodeVal, msgFields, hw, decodeVal, hd]

/-- Round trip of one message-typed field cell, given the round trip of the
referenced message type. -/
theorem rt_cellMsg (card : Option Card) (msgty : Sch)
    (ih : ∀ fs, typedBody msgty fs = true →
      (encodeBody msgty fs).bind (fun w => decodeBody msgty w) = some fs)
    (v : MV) (h : typedCellMsg card msgty v = true) :
    (encodeCellMsg card msgty v).bind (fun w => decodeCellMsg card msgty w)
      = some v := by
  cases card with
  | none =>
      cases v <;> simp [typedCellMsg] at h
      all_goals
        obtain ⟨w, hw, hd⟩ := Option.bind_eq_some.mp (ih _ h)
        simp [encodeCellMsg, decodeCellMsg, hw, hd]
  | some c =>
      cases c with
      | required =>
          cases v <;> simp [typedCellMsg] at h
          all_goals
            obtain ⟨w, hw, hd⟩ := Option.bind_eq_some.mp (ih _ h)
            simp [encodeCellMsg, decodeCellMsg, hw, hd]
      | optional =>
          cases v with
          | mOptMsg o =>
              cases o with
              | none => simp [encodeCellMsg, decodeCellMsg]
              | some mv =>
                  cases mv <;> simp [typedCellMsg] at h
                  obtain ⟨w, hw, hd⟩ := Option.bind_eq_some.mp (ih _ h)
                  simp [encodeCellMsg, decodeCellMsg, msgFields, hw, hd]
          | mPrim a => simp [typedCellMsg] at h
          | mOptPrim a => simp [typedCellMsg] at h
          | mListPrim a => simp [typedCellMsg] at h
          | mMsg a => simp [typedCellMsg] at h
          | mListMsg a => simp [typedCellMsg] at h
          | mMap a => simp [typedCellMsg] at h
      | repeated =>
          cases v with
          | mListMsg ms =>
              simp only [typedCellMsg] at h
              have hm : ∃ ws,
                  mapMOpt (fun mv => encodeBody msgty (msgFields mv)) ms
                    = some ws
                  ∧ mapMOpt (fun wm => (decodeBody msgty wm).map MV.mMsg) ws
                      = some ms := by
                induction ms with
                | nil => exact ⟨[], rfl, rfl⟩
                | cons mv ms ihms =>
                    simp only [List.all_cons, Bool.and_eq_true] at h
                    obtain ⟨h1, h2⟩ := h
                    cases mv <;> simp at h1
                    case mMsg fs =>
                      obtain ⟨w, hw, hd⟩ :=
                        Option.bind_eq_some.mp (ih _ h1)
                      obtain ⟨ws, hws, hds⟩ := ihms h2
                      refine ⟨w :: ws, ?_, ?_⟩
                      · simp only [mapMOpt]
                        rw [show msgFields (MV.mMsg fs) = fs from rfl, hw]
                        simp [hws]
                      · simp [mapMOpt, hd, hds]
              obtain ⟨ws, hws, hds⟩ := hm
              simp [encodeCellMsg, hws, decodeCellMsg, hds]
          | mPrim a => simp [typedCellMsg] at h
          | mOptPrim a => simp [typedCellMsg] at h
          | mListPrim a => simp [typedCellMsg] at h
          | mMsg a => simp [typedCellMsg] at h
          | mOptMsg a => simp [typedCellMsg] at h
          | mMap a => simp [typedCellMsg] at h

/-- Round trip of one field cell, given the round trip of the referenced
message type: the membership-test dispatch is inverted by decode exactly when
the cell's enum types are recognized. -/
theorem rt_cell (card : Option Card) (ty : Sch)
    (ih : ∀ fs, typedBody ty fs = true →
      (encodeBody ty fs).bind (fun w => decodeBody ty w) = some fs)
    (hrec : recognizedEnums ty = true)
    (v : MV) (h : typedCell card ty v = true) :
    (encodeCell card ty v).bind (fun w => decodeCell card ty w) = some v := by
  cases ty with
  | sPrim p =>
      cases card with
      | none => cases v <;> simp_all [typedCell, encodeCell, decodeCell]
      | some c =>
          cases c <;> cases v <;> simp_all [typedCell, encodeCell, decodeCell]
  | sEnum r =>
      cases r with
      | false => simp [recognizedEnums] at hrec
      | true =>
          cases card with
          | none => cases v <;> simp_all [typedCell, encodeCell, decodeCell]
          | some c =>
              cases c <;> cases v <;>
                simp_all [typedCell, encodeCell, decodeCell]
  | sMsgNil =>
      simp only [typedCell] at h
      simpa only [encodeCell, decodeCell] using rt_cellMsg card _ ih v h
  | sMsgF a b c d =>
      simp only [typedCell] at h
      simpa only [encodeCell, decodeCell] using rt_cellMsg card _ ih v h
  | sMsgO a b c =>
      simp only [typedCell] at h
      simpa only [encodeCell, decodeCell] using rt_cellMsg card _ ih v h
  | sMsgM a b c d =>
      simp only [typedCell] at h
      simpa only [encodeCell, decodeCell] using rt_cellMsg card _ ih v h

/-- Round trip of the key-value pairs of one map element, given the round
trip of the value type. -/
theorem rt_kvs (valTy : Sch)
    (ih : ∀ fs, typedBody valTy fs = true →
      (encodeBody valTy fs).bind (fun w => decodeBody valTy w) = some fs)
    (hrec : recognizedEnums valTy = true) (kt : PrimTy) :
    ∀ (kvs : List (PV × MV)),
      kvs.all (fun kv => pvTy kv.1 == kt && typedVal valTy kv.2) = true →
      ∃ ekvs,
        mapMOpt (fun kv => (encodeVal valTy kv.2).map (fun w => (kv.1, w))) kvs
          = some ekvs
        ∧ mapMOpt (fun kv => (decodeVal valTy kv.2).map (fun mv => (kv.1, mv)))
            ekvs = some kvs := by
  intro kvs
  induction kvs with
  | nil => intro _; exact ⟨[], rfl, rfl⟩
  | cons kv rest ihk =>
      intro h
      obtain ⟨k, v⟩ := kv
      simp only [List.all_cons, Bool.and_eq_true] at h
      obtain ⟨⟨_, hv⟩, hrest⟩ := h
      obtain ⟨w, hw, hd⟩ := Option.bind_eq_some.mp (rt_val valTy ih hrec v hv)
      obtain ⟨ekvs, he, hde⟩ := ihk hrest
      refine ⟨(k, w) :: ekvs, ?_, ?_⟩
      · simp [mapMOpt, hw, he]
      · simp [mapMOpt, hd, hde]

/-- C1 (amended).  Round-trip law on the generators' direct-dispatch domain:
for every message schema all of whose enum types — as field types or map
value types, at any nesting depth — pass the membership test (are declared in
the referencing message itself or at file top level), and every valid model
instance, the generated decode applied to the result of the generated encode
into a fresh wire object returns the same instance:
`decode(encode(fresh_wire_object(), m)) == m`, for messages built from
required/optional/repeated primitive, recognized-enum and nested-message
fields, oneofs over primitive-typed member fields, and maps with primitive,
recognized-enum, or message values. -/
theorem roundtrip_decode_encode (s : Sch) :
    ∀ vs, recognizedEnums s = true → typedBody s vs = true →
      (encodeBody s vs).bind (fun w => decodeBody s w) = some vs := by
  induction s with
  | sPrim p => intro vs _ h; cases vs <;> simp [typedBody] at h
  | sEnum r => intro vs _ h; cases vs <;> simp [typedBody] at h
  | sMsgNil =>
      intro vs _ h
      cases vs with
      | nil => simp [encodeBody, decodeBody]
      | cons v vs => simp [typedBody] at h
  | sMsgF n card ty rest ihty ihrest =>
      intro vs hr h
      simp only [recognizedEnums, Bool.and_eq_true] at hr
      cases vs with
      | nil => simp [typedBody] at h
      | cons v vs =>
          simp only [typedBody, Bool.and_eq_true] at h
          have ihty2 : ∀ fs, typedBody ty fs = true →
              (encodeBody ty fs).bind (fun w => decodeBody ty w) = some fs :=
            fun fs hf => ihty fs hr.1 hf
          obtain ⟨w, hw, hd⟩ :=
            Option.bind_eq_some.mp (rt_cell card ty ihty2 hr.1 v h.1)
          obtain ⟨wr, hwr, hdr⟩ :=
            Option.bind_eq_some.mp (ihrest vs hr.2 h.2)
          simp [encodeBody, hw, hwr, decodeBody, hd, hdr]
  | sMsgO n members rest ihrest =>
      intro vs hr h
      have hr2 : recognizedEnums rest = true := by
        simpa [recognizedEnums] using hr
      cases vs with
      | nil => simp [typedBody] at h
      | cons v vs =>
          cases v with
          | mPrim pv =>
              simp only [typedBody, Bool.and_eq_true] at h
              obtain ⟨h1, h2⟩ := h
              obtain ⟨wr, hwr, hdr⟩ :=
                Option.bind_eq_some.mp (ihrest vs hr2 h2)
              simp [encodeBody, hwr, decodeBody,
                decodeOneof_encodeOneof members pv h1, hdr]
          | mOptPrim a => simp [typedBody] at h
          | mListPrim a => simp [typedBody] at h
          | mMsg a => simp [typedBody] at h
          | mOptMsg a => simp [typedBody] at h
          | mListMsg a => simp [typedBody] at h
          | mMap a => simp [typedBody] at h
  | sMsgM n kt valTy rest ihval ihrest =>
      intro vs hr h
      simp only [recognizedEnums, Bool.and_eq_true] at hr
      cases vs with
      | nil => simp [typedBody] at h
      | cons v vs =>
          cases v with
          | mMap kvs =>
              simp only [typedBody, Bool.and_eq_true] at h
              obtain ⟨h1, h2⟩ := h
              have ihval2 : ∀ fs, typedBody valTy fs = true →
                  (encodeBody valTy fs).bind (fun w => decodeBody valTy w)
                    = some fs :=
                fun fs hf => ihval fs hr.1 hf
              obtain ⟨ekvs, he, hde⟩ := rt_kvs valTy ihval2 hr.1 kt kvs h1
              obtain ⟨wr, hwr, hdr⟩ :=
                Option.bind_eq_some.mp (ihrest vs hr.2 h2)
              simp [encodeBody, mapKVs, he, hwr, decodeBody, hde, hdr]
          | mPrim a => simp [typedBody] at h
          | mOptPrim a => simp [typedBody] at h
          | mListPrim a => simp [typedBody] at h
          | mMsg a => simp [typedBody] at h
          | mOptMsg a => simp [typedBody] at h
          | mListMsg a => simp [typedBody] at h

/-- With an empty slot no `HasField` guard holds, so the oneof decode fold
leaves the union local unassigned. -/
theorem decodeOneof_none (members : List (String × PrimTy)) :
    decodeOneof members none = none := by
  simp only [decodeOneof]
  have h : ∀ (ms : List (String × PrimTy)) (init : Option PV),
      ms.foldl (fun acc m =>
        match (none : Option (String × PV)) with
        | some (n, pv) => if m.1 == n then some pv else acc
        | none => acc) init = init := by
    intro ms
    induction ms with
    | nil => intro init; rfl
    | cons m ms ih => intro init; exact ih init
  rw [h]
  rfl

/-- If the slot holds a member of the oneof, the generated decode assigns the
union local from exactly that member's wire field. -/
theorem decodeOneof_present (members : List (String × PrimTy)) (n : String)
    (pv : PV) (hmem : n ∈ members.map Prod.fst) :
    decodeOneof members (some (n, pv)) = some (.mPrim pv) := by
  simp only [decodeOneof]
  rw [show (fun (acc : Option PV) (m : String × PrimTy) =>
        match some (n, pv) with
        | some (n, pv) => if m.1 == n then some pv else acc
        | none => acc)
      = fun acc m => if m.1 == n then some pv else acc from rfl]
  rw [decodeOneof_reads n pv members none hmem]
  rfl

/-- No member of a list whose declared types avoid the value's type matches
it. -/
theorem snd_not_mem_no_match (pv : PV) (ms : List (String × PrimTy))
    (hnd : pvTy pv ∉ ms.map Prod.snd) :
    ∀ a ∈ ms, (a.2 == pvTy pv) = false := by
  intro a ha
  rcases Bool.eq_false_or_eq_true (a.2 == pvTy pv) with htr | hf
  · have ha2 : a.2 = pvTy pv := by simpa using htr
    have : pvTy pv ∈ ms.map Prod.snd := by
      rw [← ha2]
      exact List.mem_map_of_mem Prod.snd ha
    exact absurd this hnd
  · exact hf

/-- When a member with the value's type occurs once by type, the encode fold
lands exactly on it. -/
theorem encodeOneof_unique (pv : PV) :
    ∀ (members : List (String × PrimTy)) (n : String),
      (members.map Prod.snd).Nodup → (n, pvTy pv) ∈ members →
      encodeOneof members (.mPrim pv) = some (n, pv) := by
  intro members
  induction members with
  | nil => intro n _ hmem; simp at hmem
  | cons m ms ih =>
      intro n hnd hmem
      simp only [List.map_cons, List.nodup_cons] at hnd
      rcases List.mem_cons.mp hmem with hm | hm
      · subst hm
        simp only [encodeOneof, List.foldl_cons, beq_self_eq_true, if_pos]
        exact foldl_no_hit _ _ ms _ (snd_not_mem_no_match pv ms hnd.1)
      · have hpvmem : pvTy pv ∈ ms.map Prod.snd := by
          simpa using List.mem_map_of_mem Prod.snd hm
        have hm2 : (m.2 == pvTy pv) = false := by
          rcases Bool.eq_false_or_eq_true (m.2 == pvTy pv) with htr | hf
          · have heq : m.2 = pvTy pv := by simpa using htr
            have : m.2 ∈ ms.map Prod.snd := by rw [heq]; exact hpvmem
            exact absurd this hnd.1
          · exact hf
        have hrec := ih n hnd.2 hm
        simp only [encodeOneof] at hrec ⊢
        rw [List.foldl_cons, hm2]
        simpa using hrec

/-- When a member with the value's type occurs once by type, exactly that
member's `isinstance` guard fires. -/
theorem oneofFiredMembers_unique (pv : PV) :
    ∀ (members : List (String × PrimTy)) (n : String),
      (members.map Prod.snd).Nodup → (n, pvTy pv) ∈ members →
      oneofFiredMembers members pv = [n] := by
  intro members
  induction members with
  | nil => intro n _ hmem; simp at hmem
  | cons m ms ih =>
      intro n hnd hmem
      simp only [List.map_cons, List.nodup_cons] at hnd
      rcases List.mem_cons.mp hmem with hm | hm
      · subst hm
        have hnil : ms.filter (fun m => m.2 == pvTy pv) = [] := by
          rw [List.filter_eq_nil_iff]
          intro a ha
          simp [snd_not_mem_no_match pv ms hnd.1 a ha]
        simp [oneofFiredMembers, List.filter_cons, hnil]
      · have hpvmem : pvTy pv ∈ ms.map Prod.snd := by
          simpa using List.mem_map_of_mem Prod.snd hm
        have hm2 : (m.2 == pvTy pv) = false := by
          rcases Bool.eq_false_or_eq_true (m.2 == pvTy pv) with htr | hf
          · have heq : m.2 = pvTy pv := by simpa using htr
            have : m.2 ∈ ms.map Prod.snd := by rw [heq]; exact hpvmem
            exact absurd this hnd.1
          · exact hf
        have hrec := ih n hnd.2 hm
        simp only [oneofFiredMembers] at hrec ⊢
        rw [List.filter_cons, hm2]
        simpa using hrec

/-- A list sorted by a Boolean key is the stable partition: the key-`false`
elements (in order) followed by the key-`true` elements (in order). -/
theorem pairwise_key_partition {α : Type} (key : α → Bool) :
    ∀ (l : List α), l.Pairwise (fun a b => (!key a || key b) = true) →
      l = l.filter (fun a => !key a) ++ l.filter (fun a => key a) := by
  intro l
  induction l with
  | nil => intro _; rfl
  | cons a t ih =>
      intro hp
      rcases List.pairwise_cons.mp hp with ⟨ha, htail⟩
      cases hka : key a with
      | false =>
          simp only [List.filter_cons, hka, Bool.not_false, if_pos,
            List.cons_append]
          exact congrArg (a :: ·) (ih htail)
      | true =>
          have hall : ∀ b ∈ t, key b = true := fun b hb => by
            simpa [hka] using ha b hb
          have h1 : t.filter (fun x => !key x) = [] := by
            rw [List.filter_eq_nil_iff]
            intro b hb
            simp [hall b hb]
          have h2 : t.filter (fun x => key x) = t :=
            List.filter_eq_self.mpr (fun b hb => hall b hb)
          simp [List.filter_cons, hka, h1, h2]

/-- C8.  The element list rendered inside a message class —
`sorted(element.elements, key=lambda e: not isinstance(e, MessageAdapter |
ast.Enum))` — places all nested `Message`/`Enum` definitions before all other
elements while preserving the relative declaration order inside each of the
two groups: the stable sort by a two-valued key is exactly the stable
partition. -/
theorem sortedElements_partition (es : List Elem) :
    sortedElements es
      = es.filter (fun e => isNestedDef e) ++ es.filter (fun e => !isNestedDef e) := by
  have htrans : ∀ (a b c : Elem), (!sortKey a || sortKey b) = true →
      (!sortKey b || sortKey c) = true → (!sortKey a || sortKey c) = true := by
    intro a b c h1 h2
    cases ha : sortKey a <;> cases hb : sortKey b <;> cases hc : sortKey c <;>
      simp_all
  have htotal : ∀ (a b : Elem),
      ((!sortKey a || sortKey b) || (!sortKey b || sortKey a)) = true := by
    intro a b
    cases ha : sortKey a <;> cases hb : sortKey b <;> simp_all
  have hperm : List.Perm (sortedElements es) es := List.mergeSort_perm es _
  have hsorted : (sortedElements es).Pairwise
      (fun a b => (!sortKey a || sortKey b) = true) :=
    List.sorted_mergeSort htrans htotal es
  have keyfilter : ∀ (p : Elem → Bool),
      (∀ a b : Elem, p a = true → (!sortKey a || sortKey b) = true) ∨
        (∀ a b : Elem, p b = true → (!sortKey a || sortKey b) = true) →
      es.filter p = (sortedElements es).filter p := by
    intro p hp
    have hpw : (es.filter p).Pairwise (fun a b => (!sortKey a || sortKey b) = true) := by
      apply List.pairwise_of_forall_mem_list
      intro a ha b hb
      have hpa := List.of_mem_filter ha
      have hpb := List.of_mem_filter hb
      rcases hp with hp | hp
      · exact hp a b hpa
      · exact hp a b hpb
    have hsub : List.Sublist (es.filter p) (sortedElements es) :=
      List.sublist_mergeSort htrans htotal hpw (List.filter_sublist es)
    have hsub2 : List.Sublist (es.filter p) ((sortedElements es).filter p) := by
      have h := hsub.filter p
      have heq : (es.filter p).filter p = es.filter p := by
        rw [List.filter_eq_self]
        intro b hb
        exact List.of_mem_filter hb
      rwa [heq] at h
    have hlen : (es.filter p).length = ((sortedElements es).filter p).length :=
      ((hperm.filter p).length_eq).symm
    exact hsub2.eq_of_length hlen
  have e1 : es.filter (fun e => !sortKey e)
      = (sortedElements es).filter (fun e => !sortKey e) := by
    apply keyfilter
    left
    intro a b hpa
    simp only [Bool.or_eq_true]
    left
    simpa using hpa
  have e2 : es.filter (fun e => sortKey e)
      = (sortedElements es).filter (fun e => sortKey e) := by
    apply keyfilter
    right
    intro a b hpb
    simp only [Bool.or_eq_true]
    right
    exact hpb
  have hpart := pairwise_key_partition sortKey (sortedElements es) hsorted
  have c1 : es.filter (fun e => isNestedDef e) = es.filter (fun e => !sortKey e) := by
    apply List.filter_congr
    intro a _
    simp [sortKey]
  have c2 : es.filter (fun e => !isNestedDef e) = es.filter (fun e => sortKey e) := by
    apply List.filter_congr
    intro a _
    simp [sortKey]
  rw [c1, c2, e1, e2]
  exact hpart

/-- A name no message scope declares makes `find_definition` return `None`. -/
theorem find_definition_none (t : String) :
    ∀ (sc : Scope), declaresInChain t sc = false → find_definition t sc = none := by
  intro sc
  induction sc with
  | noneS => intro _; rfl
  | fileS ens mns => intro _; rfl
  | msgS fqn ens mns parent ih =>
      intro h
      simp only [declaresInChain, Bool.or_eq_false_iff] at h
      simp only [find_definition, h.1.1, h.1.2, Bool.or_self, if_neg,
        Bool.false_eq_true, not_false_eq_true]
      exact ih h.2

/-- C3 counterexample: a top-level message named `int32` (a name that is also
in the primitive table) is not resolved to the top-level type: `find_definition`
stops at the `FileAdapter` without checking the file's top-level sets, so the
primitive table wins and the result is `Int32`, not the top-level qualified
name `int32`. -/
theorem qualified_type_top_level_primitive_collision :
    qualified_type (.msgS "A" [] [] (.fileS [] ["int32"])) "int32" = "Int32"
    ∧ "Int32" ≠ "int32" := by
  constructor
  · rfl
  · decide

/-- C3 (amended).  Resolution never consults the SchemaFile's top-level
enum/message sets: whenever no message scope of the chain declares the name —
regardless of what the file-level sets hold — `qualified_type` returns the
primitive-table entry, or the name unchanged when the table lacks it.  (A
top-level type name outside the primitive table therefore resolves to itself,
which coincides with its top-level qualified name; a colliding name resolves
to the primitive.) -/
theorem qualified_type_no_file_lookup (t : String) (sc : Scope)
    (h : declaresInChain t sc = false) :
    qualified_type sc t = (primLookup t).getD t := by
  simp [qualified_type, find_definition_none t sc h]

/-- Witness for C3: resolving `TopMsg` from a message scope whose file
declares `TopMsg` as a top-level message falls through to the permissive
fallback and returns the bare name, ignoring the file-level set. -/
theorem qualified_type_no_file_lookup_witness :
    declaresInChain "TopMsg" (.msgS "A" [] [] (.fileS ["TopEnum"] ["TopMsg"])) = false
    ∧ qualified_type (.msgS "A" [] [] (.fileS ["TopEnum"] ["TopMsg"])) "TopMsg"
        = (primLookup "TopMsg").getD "TopMsg" :=
  ⟨by decide,
   qualified_type_no_file_lookup "TopMsg"
     (.msgS "A" [] [] (.fileS ["TopEnum"] ["TopMsg"])) (by decide)⟩

/-- C4.  Scope shadowing: name resolution searches scopes strictly
innermost-to-outermost with primitives last, so when message `A` declares the
name among its local enums/messages and no scope between the referencing
scope and `A` declares it, resolution yields `A`'s qualified nested
definition — `A.fully_qualified_name + "." + name` — for every outer
continuation of the chain, in particular when the same name is also a
top-level type, and even when the name is in the primitive table. -/
theorem qualified_type_shadowing
    (below : List (String × List String × List String)) (afqn : String)
    (aens amns : List String) (outer : Scope) (t : String)
    (hbelow : ∀ trip ∈ below,
      trip.2.1.contains t = false ∧ trip.2.2.contains t = false)
    (ha : (aens.contains t || amns.contains t) = true) :
    qualified_type (buildChain below (.msgS afqn aens amns outer)) t
      = afqn ++ "." ++ t := by
  induction below with
  | nil =>
      have haa : t ∈ aens ∨ t ∈ amns := by simpa using ha
      simp [buildChain, qualified_type, find_definition, haa]
  | cons trip rest ih =>
      obtain ⟨fqn, ens, mns⟩ := trip
      have h1 := hbelow (fqn, ens, mns) (by simp)
      have h1a : ¬ t ∈ ens := by simpa using h1.1
      have h1b : ¬ t ∈ mns := by simpa using h1.2
      have hfd : find_definition t
          (buildChain ((fqn, ens, mns) :: rest) (.msgS afqn aens amns outer))
          = find_definition t (buildChain rest (.msgS afqn aens amns outer)) := by
        simp [buildChain, find_definition, h1a, h1b]
      have := ih (fun tr htr => hbelow tr (by simp [htr]))
      simp only [qualified_type] at this ⊢
      rw [hfd]
      exact this

/-- Witness for C4 (spec scenario 5): `Inner` declared both as a nested
message of `Outer` and as a top-level message resolves, from a scope inside
`Outer`, to `Outer.Inner`. -/
theorem qualified_type_shadowing_witness :
    ((["Mid1Enum"] : List String).contains "Inner" = false
        ∧ (["Mid1Msg"] : List String).contains "Inner" = false)
    ∧ ((([] : List String).contains "Inner"
        || (["Inner"] : List String).contains "Inner") = true)
    ∧ qualified_type
        (buildChain [("Outer.Mid", ["Mid1Enum"], ["Mid1Msg"])]
          (.msgS "Outer" [] ["Inner"] (.fileS [] ["Inner"]))) "Inner"
        = "Outer.Inner" := by
  refine ⟨⟨by decide, by decide⟩, by decide, ?_⟩
  exact qualified_type_shadowing [("Outer.Mid", ["Mid1Enum"], ["Mid1Msg"])]
    "Outer" [] ["Inner"] (.fileS [] ["Inner"]) "Inner"
    (by intro tr htr; constructor <;> (simp at htr; rw [htr]) <;> decide)
    (by decide)

/-- `Except` bind on a success. -/
theorem except_bind_ok {ε α β : Type} (a : α) (f : α → Except ε β) :
    (Except.ok a >>= f) = f a := rfl

/-- `Except` bind on a failure. -/
theorem except_bind_error {ε α β : Type} (k : ε) (f : α → Except ε β) :
    ((Except.error k : Except ε α) >>= f) = .error k := rfl

/-- `Except` map on a success. -/
theorem except_map_ok {ε α β : Type} (f : α → β) (a : α) :
    Except.map f (Except.ok a : Except ε α) = .ok (f a) := rfl

/-- `Except` map on a failure. -/
theorem except_map_error {ε α β : Type} (f : α → β) (k : ε) :
    Except.map f (Except.error k : Except ε α) = .error k := rfl

/-- Splitting the element loop of the adapter at a list append. -/
theorem adaptElems_append (p : String) :
    ∀ (xs ys : List RawElem),
      adaptElems (xs ++ ys) p
        = (adaptElems xs p).bind
            (fun l => (adaptElems ys p).map (fun r => l ++ r)) := by
  intro xs
  induction xs with
  | nil =>
      intro ys
      simp only [List.nil_append, adaptElems]
      cases adaptElems ys p <;>
        simp [Except.bind, except_map_ok, except_map_error]
  | cons e xs ih =>
      intro ys
      simp only [List.cons_append, adaptElems]
      cases hA : adaptElem e p with
      | error k => simp [Except.bind, except_bind_error]
      | ok v =>
          simp only [except_bind_ok]
          rw [ih ys]
          cases adaptElems xs p with
          | error k => simp [Except.bind, except_bind_error]
          | ok l =>
              cases adaptElems ys p <;>
                simp [Except.bind, except_bind_ok, except_bind_error,
                  except_map_ok, except_map_error]

/-- C5.  Adapting a message that contains an element whose node kind the
adapter does not recognize (a class outside the `MessageElement` union) fails
with the `KeyError(key)` signal of `grouped_elements[key]` — the spec's
`SchemaError` — whose payload is the snake-cased class name of the offending
node; the adapter neither succeeds nor fails with an error about anything
else. -/
theorem from_message_unrecognized_kind (name par : String)
    (pre post : List RawElem) (c : String) (l : List Adapted)
    (hpre : adaptElems pre (par ++ name ++ ".") = .ok l)
    (hc : messageElementKinds.contains (camel_to_snake c) = false) :
    from_message name (pre ++ .rUnknown c :: post) par
      = .error (camel_to_snake c) := by
  simp only [from_message]
  rw [adaptElems_append _ pre (.rUnknown c :: post), hpre]
  simp only [adaptElems, adaptElem, rawClassName, hc, except_bind_ok]
  simp [Except.bind, except_bind_error, except_map_error, Bool.false_eq_true]

/-- Witness for C5: a message holding a `Service` node (not a member of
`MessageElement`) fails to adapt with the key `service`. -/
theorem from_message_unrecognized_kind_witness :
    adaptElems ([] : List RawElem) ("" ++ "M" ++ ".") = .ok []
    ∧ messageElementKinds.contains (camel_to_snake "Service") = false
    ∧ from_message "M" ([] ++ RawElem.rUnknown "Service" :: []) ""
        = .error (camel_to_snake "Service") :=
  ⟨by simp [adaptElems], by decide,
   from_message_unrecognized_kind "M" "" [] [] "Service" []
     (by simp [adaptElems]) (by decide)⟩

/-- C6.  A REQUIRED field whose type resolves through the scope chain to an
enum declared in an ancestor message scope is not assigned directly: the
membership test of `encode_field`/`decode_field` checks only the primitive
table, the message's own `enum_names`, and the file-level `enum_names`, so
the field falls into the message branch and the generated code calls
`Outer.Color.encode(...)` / `Outer.Color.decode(...)` — recursive
message-codec calls on an `IntEnum` class, which defines neither. -/
theorem ancestor_enum_encoded_as_message :
    qualified_type innerCtxC6.toScope "Color" = "Outer.Color"
    ∧ encode_field ⟨"color", "Color", some .required⟩ innerCtxC6
        = "Outer.Color.encode(proto_obj.color, inner.color)"
    ∧ decode_field ⟨"color", "Color", some .required⟩ innerCtxC6
        = "color = Outer.Color.decode(proto_obj.color)"
    ∧ encode_field ⟨"color", "Color", some .required⟩ innerCtxC6
        ≠ "proto_obj.color = inner.color"
    ∧ decode_field ⟨"color", "Color", some .required⟩ innerCtxC6
        ≠ "color = proto_obj.color" := by
  refine ⟨?_, ?_, ?_, ?_, ?_⟩ <;> decide

/-- C7.  The constructor call emitted at the end of the generated decode
supplies, as keyword arguments, the names of exactly the `Field`, `OneOf`,
and `MapField` elements, each exactly once (given distinct names), in the
message's declaration order, and supplies no argument for nested
`Message`/`Enum` definitions. -/
theorem constructor_kwargs_exact (es : List Elem)
    (hnd : ((es.filter isCtorElem).map elemName).Nodup) :
    ctorKwargNames es = (es.filter isCtorElem).map elemName
    ∧ (∀ e ∈ es, isCtorElem e = true →
        (ctorKwargNames es).count (elemName e) = 1)
    ∧ (∀ e ∈ es, isNestedDef e = true →
        elemName e ∉ (es.filter isCtorElem).map elemName →
        elemName e ∉ ctorKwargNames es)
    ∧ constructor_kwargs es = String.intercalate ",\n    "
        ((ctorKwargNames es).map (fun nm => nm ++ "=" ++ nm)) := by
  refine ⟨rfl, ?_, ?_, ?_⟩
  · intro e he hctor
    have hmem : elemName e ∈ (es.filter isCtorElem).map elemName :=
      List.mem_map_of_mem elemName (List.mem_filter.mpr ⟨he, hctor⟩)
    exact List.count_eq_one_of_mem hnd hmem
  · intro e _ _ hnot
    exact hnot
  · simp [constructor_kwargs, ctorKwargNames, List.map_map]
    rfl

/-- Witness for C7: the constructor kwargs of the demo message are exactly
`x`, `pick`, `m`, in declaration order. -/
theorem constructor_kwargs_exact_witness :
    ((demoElemsC7.filter isCtorElem).map elemName).Nodup
    ∧ ctorKwargNames demoElemsC7 = ["x", "pick", "m"] := by
  have h := constructor_kwargs_exact demoElemsC7 (by decide)
  refine ⟨by decide, ?_⟩
  rw [h.1]
  decide

/-- C9.  Rendering a `OneOf` holding any non-`Field` element, or a `Group`,
`Extension`, `Reserved`, or `ExtensionRange` element, fails with a
`NotImplementedError`; none of them is silently dropped. -/
theorem render_unsupported_fails (ctx : Ctx) :
    (∀ (nm : String) (mems : List OneofElem), mems.all isOFieldB = false →
        render_attribute (.oneofE nm mems) ctx
          = .error (.notImplementedError "Only implemented OneOf for Field"))
    ∧ render_attribute .groupE ctx
        = .error (.notImplementedError (elemRepr .groupE))
    ∧ render_attribute .extensionE ctx
        = .error (.notImplementedError (elemRepr .extensionE))
    ∧ render_attribute .reservedE ctx
        = .error (.notImplementedError (elemRepr .reservedE))
    ∧ render_attribute .extensionRangeE ctx
        = .error (.notImplementedError (elemRepr .extensionRangeE)) := by
  refine ⟨?_, ?_, ?_, ?_, ?_⟩
  · intro nm mems h
    simp [render_attribute, h]
  all_goals simp [render_attribute]

/-- Witness for C9: a oneof holding a comment is rejected with
`NotImplementedError("Only implemented OneOf for Field")`. -/
theorem render_unsupported_fails_witness :
    ([OneofElem.oComment "c"].all isOFieldB = false)
    ∧ render_attribute (.oneofE "pick" [.oComment "c"]) (.fileC [] [])
        = .error (.notImplementedError "Only implemented OneOf for Field") :=
  ⟨by decide,
   (render_unsupported_fails (.fileC [] [])).1 "pick" [.oComment "c"]
     (by decide)⟩

/-- C10.  When no member field of a oneof is marked present on the wire, the
generated decode does not return a model instance with an absent union value:
no `HasField` branch assigns the union local, so the trailing constructor
call fails with an unbound-name error — decoding yields no model at all. -/
theorem decode_unassigned_oneof_fails (s : Sch) :
    ∀ ws, oneofUnsetAt s ws = true → decodeBody s ws = none := by
  induction s with
  | sPrim p => intro ws h; simp [oneofUnsetAt] at h
  | sEnum r => intro ws h; simp [oneofUnsetAt] at h
  | sMsgNil => intro ws h; simp [oneofUnsetAt] at h
  | sMsgF n card ty rest ihty ihrest =>
      intro ws h
      cases ws with
      | nil => simp [oneofUnsetAt] at h
      | cons w ws =>
          have h2 : oneofUnsetAt rest ws = true := by
            simpa [oneofUnsetAt] using h
          simp only [decodeBody]
          cases hdc : decodeCell card ty w with
          | none => simp
          | some v => simp [ihrest ws h2]
  | sMsgO n members rest ihrest =>
      intro ws h
      cases ws with
      | nil => simp [oneofUnsetAt] at h
      | cons w ws =>
          cases w with
          | wOneof slot =>
              cases slot with
              | none => simp [decodeBody, decodeOneof_none]
              | some pair =>
                  have h2 : oneofUnsetAt rest ws = true := by
                    simpa [oneofUnsetAt] using h
                  simp only [decodeBody]
                  cases hdo : decodeOneof members (some pair) with
                  | none => simp
                  | some v => simp [ihrest ws h2]
          | wScalar a => simp [decodeBody]
          | wList a => simp [decodeBody]
          | wSub a => simp [decodeBody]
          | wSubList a => simp [decodeBody]
          | wMap a => simp [decodeBody]
  | sMsgM n kt valTy rest ihval ihrest =>
      intro ws h
      cases ws with
      | nil => simp [oneofUnsetAt] at h
      | cons w ws =>
          cases w with
          | wMap kvs =>
              have h2 : oneofUnsetAt rest ws = true := by
                simpa [oneofUnsetAt] using h
              simp only [decodeBody]
              cases hdm : mapMOpt (fun (kv : PV × WF) =>
                  (decodeVal valTy kv.2).map (fun mv => (kv.1, mv))) kvs with
              | none => simp [hdm]
              | some v => simp [hdm, ihrest ws h2]
          | wScalar a => simp [decodeBody]
          | wList a => simp [decodeBody]
          | wSub a => simp [decodeBody]
          | wSubList a => simp [decodeBody]
          | wOneof a => simp [decodeBody]

/-- Witness for C10: with `x` set and no `pick` member present, decode fails
instead of producing an instance with an absent union. -/
theorem decode_unassigned_oneof_fails_witness :
    oneofUnsetAt schC10 [.wScalar (some (.pInt 1)), .wOneof none] = true
    ∧ decodeBody schC10 [.wScalar (some (.pInt 1)), .wOneof none] = none :=
  ⟨by decide,
   decode_unassigned_oneof_fails schC10
     [.wScalar (some (.pInt 1)), .wOneof none] (by decide)⟩

/-- C2 counterexample: in a oneof whose two members `a` and `b` share the
type `int32`, the union value `1` satisfies the `isinstance` guard of BOTH
generated encode branches — the guard list is `["a", "b"]`, not a singleton —
so encoding a model that holds either variant also assigns the sibling's wire
field; the wire oneof's exclusivity then leaves the LAST member `b` owning
the slot, so a model holding variant `a` ends with sibling `b` set. -/
theorem oneof_duplicate_type_counterexample :
    oneofFiredMembers [("a", .ptInt), ("b", .ptInt)] (.pInt 1) = ["a", "b"]
    ∧ encodeOneof [("a", .ptInt), ("b", .ptInt)] (.mPrim (.pInt 1))
        = some ("b", .pInt 1) := by
  constructor <;> rfl

/-- C2 (amended).  When the member types of a oneof are pairwise distinct,
the generated encode fires exactly the guard of the member whose type the
union value holds and sets only that member's wire field; and for any wire
object with exactly one member present, the generated decode assigns the
union local from exactly that member.  With duplicate member types every
matching guard fires and the last matching member wins on the wire. -/
theorem oneof_exclusivity_distinct_types (members : List (String × PrimTy))
    (n : String) (pv : PV) (hnd : (members.map Prod.snd).Nodup)
    (hmem : (n, pvTy pv) ∈ members) :
    oneofFiredMembers members pv = [n]
    ∧ encodeOneof members (.mPrim pv) = some (n, pv)
    ∧ ∀ (sn : String) (sv : PV), sn ∈ members.map Prod.fst →
        decodeOneof members (some (sn, sv)) = some (.mPrim sv) :=
  ⟨oneofFiredMembers_unique pv members n hnd hmem,
   encodeOneof_unique pv members n hnd hmem,
   fun sn sv hsn => decodeOneof_present members sn sv hsn⟩

/-- Witness for C2 (amended): in `oneof pick { int32 a; string b; }` holding
the integer `5`, only member `a` fires and only `a`'s wire field is set. -/
theorem oneof_exclusivity_distinct_types_witness :
    (([("a", PrimTy.ptInt), ("b", PrimTy.ptStr)].map Prod.snd)).Nodup
    ∧ ("a", pvTy (PV.pInt 5)) ∈ [("a", PrimTy.ptInt), ("b", PrimTy.ptStr)]
    ∧ oneofFiredMembers [("a", PrimTy.ptInt), ("b", PrimTy.ptStr)] (.pInt 5)
        = ["a"]
    ∧ encodeOneof [("a", PrimTy.ptInt), ("b", PrimTy.ptStr)]
        (.mPrim (.pInt 5)) = some ("a", .pInt 5) := by
  have h := oneof_exclusivity_distinct_types
    [("a", PrimTy.ptInt), ("b", PrimTy.ptStr)] "a" (.pInt 5)
    (by decide) (by decide)
  exact ⟨by decide, by decide, h.1, h.2.1⟩

/-- C1 counterexample: the round-trip law fails as frozen.  For the valid
instance `Inner(color=1)` of a message whose `color` field's type is an enum
declared in an ancestor message scope, the generated encode produces no wire
object at all: the emitted `Outer.Color.encode(proto_obj.color, inner.color)`
is an attribute access on an `IntEnum` class that defines no `encode`, so
`decode(encode(fresh_wire_object(), m))` crashes instead of returning `m`. -/
theorem roundtrip_fails_ancestor_enum :
    typedBody schAncestorEnum valAncestorEnum = true
    ∧ (encodeBody schAncestorEnum valAncestorEnum).bind
        (fun w => decodeBody schAncestorEnum w) = none
    ∧ (encodeBody schAncestorEnum valAncestorEnum).bind
        (fun w => decodeBody schAncestorEnum w) ≠ some valAncestorEnum := by
  refine ⟨?_, ?_, ?_⟩
  · simp [schAncestorEnum, valAncestorEnum, typedBody, typedCell, isIntPV]
  · simp [schAncestorEnum, valAncestorEnum, encodeBody, encodeCell]
  · simp [schAncestorEnum, valAncestorEnum, encodeBody, encodeCell]

/-- Witness for C1: the demo instance is valid on the recognized domain and
round-trips. -/
theorem roundtrip_decode_encode_witness :
    recognizedEnums schC1 = true
    ∧ typedBody schC1 valC1 = true
    ∧ (encodeBody schC1 valC1).bind (fun w => decodeBody schC1 w)
        = some valC1 := by
  have hr : recognizedEnums schC1 = true := by
    simp [schC1, recognizedEnums]
  have ht : typedBody schC1 valC1 = true := by
    simp [schC1, valC1, typedBody, typedCell, typedCellMsg, typedVal, pvTy,
      isIntPV]
  exact ⟨hr, ht, roundtrip_decode_encode schC1 valC1 hr ht⟩

end AutoDev
